import Mathlib

/-!
Verification of the termchat rendering pipeline (`src/ui.rs`).

Strings are modelled as `List Char`; the `u16` arithmetic of the drawing
layer is modelled as `Nat` with explicit wrapping modulo `2 ^ 16`; the
`f32` scaling arithmetic of the progress bar is modelled bit-faithfully by
IEEE-754 binary32 round-to-nearest-ties-to-even over explicit
significand/exponent pairs, with the truncating cast to `usize` as the
integer part.
-/

namespace Termchat

/-- Colors of the `tui` crate used by `ui.rs`. -/
inductive Color where
  | Blue | Yellow | Cyan | Magenta
  | Green | DarkGray | LightYellow | LightRed | Red | White | LightGreen
  deriving DecidableEq, Repr

/-- A styled run of text: `Span::styled text (fg color)` carries `some c`,
`Span::raw text` carries `none`. -/
structure Span where
  text : List Char
  fg : Option Color
  deriving DecidableEq, Repr

/-- `TermchatMessageType` from `state.rs`, as used by `ui.rs`. -/
inductive TermchatMessageType where
  | Notify | Error
  deriving DecidableEq, Repr

/-- `MessageType` from `state.rs`, as used by `ui.rs`. -/
inductive MessageType where
  | Connection
  | Disconnection
  | Content (content : List Char)
  | Termchat (content : List Char) (msg_type : TermchatMessageType)
  deriving DecidableEq, Repr

/-- A chat-log entry; `date` holds the already formatted timestamp text. -/
structure Message where
  user : List Char
  date : List Char
  message_type : MessageType
  deriving DecidableEq, Repr

/-- Wrapping subtraction on `u16`: both operands reduced mod `2 ^ 16`,
the difference taken modulo `2 ^ 16` (release-mode Rust semantics of
`a - b` on `u16`). -/
def u16_sub (a b : Nat) : Nat :=
  (a % 65536 + (65536 - b % 65536)) % 65536

/-- Rust `str::starts_with`, on character lists: first argument the string,
second the pattern. -/
def starts_with : List Char → List Char → Bool
  | _, [] => true
  | [], _ :: _ => false
  | a :: l, b :: p => a == b && starts_with l p

/-- The literal command token recognized by `parse_content`. -/
def SEND_COMMAND : List Char := "?send".toList

/-- `parse_content` from `ui.rs` lines 119-143: a content string starting
with `"?send"` becomes the highlighted token followed by the raw remainder
after the token (`splitn(2, "?send")` on such a string yields the empty
part before the match and the remainder after it); any other string
becomes a single raw run. -/
def parse_content (content : List Char) : List Span :=
  if starts_with content SEND_COMMAND then
    [⟨SEND_COMMAND, some Color.LightYellow⟩,
     ⟨content.drop SEND_COMMAND.length, none⟩]
  else
    [⟨content, none⟩]

/-- The fixed palette `MESSAGE_COLORS` from `ui.rs` line 34. -/
def MESSAGE_COLORS : List Color :=
  [Color.Blue, Color.Yellow, Color.Cyan, Color.Magenta]

/-- Color chosen for a message's user in `ui.rs` lines 41-45:
`palette[id % palette.len()]` when the user has an id in `users_id`,
green (the local user's reserved color) otherwise. -/
def user_color (users_id : List Char → Option Nat) (user : List Char) : Color :=
  match users_id user with
  | some id => MESSAGE_COLORS.get ⟨id % MESSAGE_COLORS.length, Nat.mod_lt id (by decide)⟩
  | none => Color.Green

/-- One log entry turned into its styled display line
(`ui.rs` lines 40-79). -/
def format_message (users_id : List Char → Option Nat) (m : Message) : List Span :=
  let color := user_color users_id m.user
  match m.message_type with
  | MessageType.Connection =>
      [⟨m.date, some Color.DarkGray⟩,
       ⟨m.user, some color⟩,
       ⟨" is online".toList, some color⟩]
  | MessageType.Disconnection =>
      [⟨m.date, some Color.DarkGray⟩,
       ⟨m.user, some color⟩,
       ⟨" is offline".toList, some color⟩]
  | MessageType.Content content =>
      ⟨m.date, some Color.DarkGray⟩ ::
      ⟨m.user, some color⟩ ::
      ⟨": ".toList, some color⟩ ::
      parse_content content
  | MessageType.Termchat content msg_type =>
      let colors := match msg_type with
        | TermchatMessageType.Notify => (Color.Yellow, Color.LightYellow)
        | TermchatMessageType.Error => (Color.Red, Color.LightRed)
      [⟨m.date, some Color.DarkGray⟩,
       ⟨m.user, some colors.1⟩,
       ⟨content, some colors.2⟩]

/-- Drawable bar width from `ui.rs` line 104: `panel_width - 20` on `u16`. -/
def ui_width (panel_width : Nat) : Nat := u16_sub panel_width 20

/-- Floor of the base-2 logarithm, by structural recursion on a fuel
bound; exact for every argument below `2 ^ fuel`. -/
def floorLog2 : Nat → Nat → Nat
  | 0, _ => 0
  | fuel + 1, n => if n ≤ 1 then 0 else floorLog2 fuel (n / 2) + 1

/-- A nonnegative IEEE-754 binary32 value, represented exactly as
`m * 2 ^ e`; results of `roundToF32` have `2 ^ 23 ≤ m < 2 ^ 24 + 1`
(or `m = 0`), i.e. a 24-bit significand. -/
structure F32 where
  m : Nat
  e : ℤ
  deriving DecidableEq, Repr

/-- Round the nonnegative rational `(num / den) * 2 ^ e` to the nearest
binary32 value, ties to even, as IEEE-754 prescribes for every basic
operation. The model covers the range reachable in `add_progress_bar`
(magnitudes in `[2 ^ -64, 2 ^ 128)` plus zero): subnormal underflow,
overflow to infinity and a zero `den` (a division by zero, giving an f32
infinity for `total = 0`) are outside it and outside every claim. -/
def roundToF32 (num den : Nat) (e : ℤ) : F32 :=
  if num = 0 then ⟨0, 0⟩
  else
    let k : Nat := floorLog2 256 (num * 2 ^ 64 / den)
    let sh : ℤ := 87 - (k : ℤ)
    let A : Nat := if 0 ≤ sh then num * 2 ^ sh.toNat else num
    let B : Nat := if 0 ≤ sh then den else den * 2 ^ (-sh).toNat
    let q0 : Nat := A / B
    let r : Nat := A % B
    let m : Nat :=
      if 2 * r < B then q0
      else if B < 2 * r then q0 + 1
      else if q0 % 2 = 0 then q0 else q0 + 1
    ⟨m, e + (k : ℤ) - 87⟩

/-- Rust `n as f32` on a nonnegative integer: round to nearest, ties to
even. -/
def F32.ofNat (x : Nat) : F32 := roundToF32 x 1 0

/-- Correctly rounded f32 multiplication: round the exact product. -/
def F32.mul (a b : F32) : F32 := roundToF32 (a.m * b.m) 1 (a.e + b.e)

/-- Correctly rounded f32 division: round the exact quotient. -/
def F32.div (a b : F32) : F32 := roundToF32 a.m b.m (a.e - b.e)

/-- Rust `x as usize` on a nonnegative f32 value: truncate toward zero
(the saturating clamp at `usize::MAX` is outside the reachable range of
every claim). -/
def F32.toUsize (a : F32) : Nat :=
  if 0 ≤ a.e then a.m * 2 ^ a.e.toNat else a.m / 2 ^ (-a.e).toNat

/-- The exact rational value denoted by an `F32`. -/
def F32.toRat (a : F32) : ℚ := (a.m : ℚ) * (2 : ℚ) ^ a.e

/-- Scale factor from `ui.rs` line 105: `width as f32 / max as f32`. -/
def ui_step (panel_width max : Nat) : F32 :=
  F32.div (F32.ofNat (ui_width panel_width)) (F32.ofNat max)

/-- Filled-cell count from `ui.rs` line 106:
`(current as f32 * ui_step) as usize`. -/
def ui_current (current max panel_width : Nat) : Nat :=
  (F32.mul (F32.ofNat current) (ui_step panel_width max)).toUsize

/-- Empty-cell count from `ui.rs` line 107:
`(max.saturating_sub(current) as f32 * ui_step) as usize`
(`Nat` subtraction is saturating subtraction). -/
def ui_remaining (current max panel_width : Nat) : Nat :=
  (F32.mul (F32.ofNat (max - current)) (ui_step panel_width max)).toUsize

/-- The overlay line built by `add_progress_bar` (`ui.rs` lines 109-115):
`"Sending: "` then `[###...---...]`. -/
def progress_line (progress : Nat × Nat) (panel_width : Nat) : List Span :=
  let current := progress.1
  let max := progress.2
  [⟨"Sending: ".toList, some Color.LightGreen⟩,
   ⟨['['] ++ List.replicate (ui_current current max panel_width) '#'
         ++ List.replicate (ui_remaining current max panel_width) '-'
         ++ [']'],
    some Color.LightGreen⟩]

/-- The transcript display list built in `draw_messages_panel`
(`ui.rs` lines 36-85): the log reversed and formatted, with the progress
overlay inserted at index 0 when a transfer is active. -/
def message_lines (users_id : List Char → Option Nat) (msgs : List Message)
    (progress : Option (Nat × Nat)) (panel_width : Nat) : List (List Span) :=
  let formatted := msgs.reverse.map (format_message users_id)
  match progress with
  | some p => List.insertIdx 0 (progress_line p panel_width) formatted
  | none => formatted

/-- The transcript panel as configured in `ui.rs` lines 87-95: its display
lines, bold border title, the scroll pair passed to `Paragraph::scroll`
(vertical offset cast `as u16`, horizontal fixed at 0), and the soft-wrap
flag. -/
structure MessagesPanel where
  lines : List (List Span)
  title : List Char
  scroll : Nat × Nat
  wrap_trim : Bool
  deriving Repr

/-- `draw_messages_panel` (`ui.rs` lines 29-98), restricted to the widget
value it renders. -/
def draw_messages_panel (users_id : List Char → Option Nat)
    (msgs : List Message) (progress : Option (Nat × Nat))
    (scroll_messages_view : Nat) (panel_width : Nat) : MessagesPanel :=
  { lines := message_lines users_id msgs progress panel_width
    title := "LAN Room".toList
    scroll := (scroll_messages_view % 65536, 0)
    wrap_trim := false }

/-- Usable text width of the input panel (`ui.rs` line 150):
`(chunk.width - 2) as usize` on `u16`. -/
def inner_width (chunk_width : Nat) : Nat := u16_sub chunk_width 2

/-- Modelled from the spec: `split_each` lives in `util.rs`, which is not
part of the visible source; the design says to split the full input string
into fixed-length chunks of the usable width, in order, preserving all
characters, one display line per chunk including a final partial chunk. -/
def split_each (input : List Char) (width : Nat) : List (List Char) :=
  if h : input.length ≤ width ∨ width = 0 then [input]
  else
    have : input.length - width < input.length := by omega
    input.take width :: split_each (input.drop width) width
termination_by input.length
decreasing_by simpa using this

/-- Modelled from the spec: `ApplicationState::ui_input_cursor` lives in
`state.rs`, which is not part of the visible source; the design says
`row = offset / width`, `col = offset mod width` with integer division,
returned as an `(x, y)` pair, i.e. `(col, row)`. -/
def ui_input_cursor (offset width : Nat) : Nat × Nat :=
  (offset % width, offset / width)

/-- The absolute cursor position set by `draw_input_panel`
(`ui.rs` lines 168-169): `(chunk.x + 1 + cursor.0, chunk.y + 1 + cursor.1)`. -/
def input_cursor_screen (chunk_x chunk_y offset width : Nat) : Nat × Nat :=
  (chunk_x + 1 + (ui_input_cursor offset width).1,
   chunk_y + 1 + (ui_input_cursor offset width).2)

theorem starts_with_iff_exists (l p : List Char) :
    starts_with l p = true ↔ ∃ t, l = p ++ t := by
  induction p generalizing l with
  | nil =>
      simp [starts_with]
  | cons b p ih =>
      cases l with
      | nil => simp [starts_with]
      | cons a l =>
          simp only [starts_with, Bool.and_eq_true, beq_iff_eq, ih,
            List.cons_append, List.cons.injEq]
          constructor
          · rintro ⟨rfl, t, rfl⟩
            exact ⟨t, rfl, rfl⟩
          · rintro ⟨t, rfl, rfl⟩
            exact ⟨rfl, t, rfl⟩

/-- C7: every content string that starts with the literal token `?send`
parses to exactly two runs: the token itself in the highlight color,
then the exact remainder of the string after the token's first
occurrence, unstyled. -/
theorem parse_content_send (content : List Char)
    (h : starts_with content SEND_COMMAND = true) :
    ∃ rest, content = SEND_COMMAND ++ rest ∧
      parse_content content =
        [⟨SEND_COMMAND, some Color.LightYellow⟩, ⟨rest, none⟩] := by
  obtain ⟨rest, rfl⟩ := (starts_with_iff_exists content SEND_COMMAND).1 h
  refine ⟨rest, rfl, ?_⟩
  simp [parse_content, h, List.drop_left]

/-- Claim C7 witness at the concrete input `?send f.txt`. -/
theorem parse_content_send_witness :
    ∃ rest, "?send f.txt".toList = SEND_COMMAND ++ rest ∧
      parse_content "?send f.txt".toList =
        [⟨SEND_COMMAND, some Color.LightYellow⟩, ⟨rest, none⟩] :=
  parse_content_send "?send f.txt".toList (by decide)

/-- C8: every content string that does not start with `?send` parses to
exactly one unstyled run equal to the input, and the empty string
produces a single empty run. -/
theorem parse_content_no_command :
    (∀ content, starts_with content SEND_COMMAND = false →
        parse_content content = [⟨content, none⟩]) ∧
    parse_content [] = [⟨([] : List Char), none⟩] := by
  constructor
  · intro content h
    simp [parse_content, h]
  · simp [parse_content, starts_with, SEND_COMMAND]

/-- Claim C8 witness at the concrete input `hello`. -/
theorem parse_content_no_command_witness :
    parse_content "hello".toList = [⟨"hello".toList, none⟩] :=
  parse_content_no_command.1 "hello".toList (by decide)

/-- C6: for Connection, Disconnection and Content entries the user's span
(at index 1 of the formatted line) is styled with `user_color`; a user
registered with index `i` gets `MESSAGE_COLORS[i % 4]` from the fixed
4-entry palette, the same index always yields the same color, and an
unregistered user (the local user) gets the reserved green, which is not
in the palette. -/
theorem format_message_user_color (users_id : List Char → Option Nat) (m : Message)
    (h : m.message_type = MessageType.Connection ∨
         m.message_type = MessageType.Disconnection ∨
         ∃ s, m.message_type = MessageType.Content s) :
    (format_message users_id m).get? 1 =
        some ⟨m.user, some (user_color users_id m.user)⟩ ∧
    MESSAGE_COLORS.length = 4 ∧
    (∀ i, users_id m.user = some i →
        user_color users_id m.user =
          MESSAGE_COLORS.get ⟨i % 4, Nat.mod_lt i (by decide)⟩) ∧
    (∀ (users_id2 : List Char → Option Nat) (user2 : List Char) (i : Nat),
        users_id m.user = some i → users_id2 user2 = some i →
        user_color users_id m.user = user_color users_id2 user2) ∧
    (users_id m.user = none → user_color users_id m.user = Color.Green) ∧
    Color.Green ∉ MESSAGE_COLORS := by
  refine ⟨?_, rfl, ?_, ?_, ?_, by decide⟩
  · rcases h with h | h | ⟨s, h⟩ <;> simp [format_message, h]
  · intro i hi
    simp [user_color, hi, MESSAGE_COLORS]
  · intro users_id2 user2 i hi hi2
    simp [user_color, hi, hi2]
  · intro hnone
    simp [user_color, hnone]

/-- Claim C6 witness: a Connection entry from user `bob` registered with
index 6 is shown in `MESSAGE_COLORS[6 % 4]`. -/
theorem format_message_user_color_witness :
    (format_message (fun u => if u = "bob".toList then some 6 else none)
          ⟨"bob".toList, "12:00:00 ".toList, MessageType.Connection⟩).get? 1 =
        some ⟨"bob".toList,
          some (user_color (fun u => if u = "bob".toList then some 6 else none)
            "bob".toList)⟩ ∧
    MESSAGE_COLORS.length = 4 ∧
    (∀ i, (fun u => if u = "bob".toList then some 6 else none) "bob".toList = some i →
        user_color (fun u => if u = "bob".toList then some 6 else none) "bob".toList =
          MESSAGE_COLORS.get ⟨i % 4, Nat.mod_lt i (by decide)⟩) ∧
    (∀ (users_id2 : List Char → Option Nat) (user2 : List Char) (i : Nat),
        (fun u => if u = "bob".toList then some 6 else none) "bob".toList = some i →
        users_id2 user2 = some i →
        user_color (fun u => if u = "bob".toList then some 6 else none) "bob".toList =
          user_color users_id2 user2) ∧
    ((fun u => if u = "bob".toList then some 6 else none) "bob".toList = none →
        user_color (fun u => if u = "bob".toList then some 6 else none) "bob".toList =
          Color.Green) ∧
    Color.Green ∉ MESSAGE_COLORS :=
  format_message_user_color (fun u => if u = "bob".toList then some 6 else none)
    ⟨"bob".toList, "12:00:00 ".toList, MessageType.Connection⟩ (Or.inl rfl)

/-- C5: the transcript display list is the log reversed to newest-first
order; with an active transfer the progress overlay is inserted ahead of
all chat lines; hence at scroll offset 0 the topmost line is the newest
entry, or the overlay when present. -/
theorem message_lines_order (users_id : List Char → Option Nat)
    (msgs : List Message) (panel_width : Nat) :
    message_lines users_id msgs none panel_width =
        msgs.reverse.map (format_message users_id) ∧
    (∀ p, message_lines users_id msgs (some p) panel_width =
        progress_line p panel_width ::
          msgs.reverse.map (format_message users_id)) ∧
    (message_lines users_id msgs none panel_width).head? =
        msgs.getLast?.map (format_message users_id) ∧
    (∀ p, (message_lines users_id msgs (some p) panel_width).head? =
        some (progress_line p panel_width)) := by
  refine ⟨rfl, ?_, ?_, ?_⟩
  · intro p
    simp [message_lines]
  · simp [message_lines, List.head?_map, List.head?_reverse]
  · intro p
    simp [message_lines]

/-- C9: the scroll applied to the transcript panel is the state's scroll
offset truncated to 16 bits with horizontal scroll 0, so it is the
identity below 65536 and wraps at 65536 and beyond. -/
theorem messages_panel_scroll (users_id : List Char → Option Nat)
    (msgs : List Message) (progress : Option (Nat × Nat))
    (s panel_width : Nat) :
    (draw_messages_panel users_id msgs progress s panel_width).scroll =
        (s % 65536, 0) ∧
    (draw_messages_panel users_id msgs progress (s + 65536) panel_width).scroll =
        (draw_messages_panel users_id msgs progress s panel_width).scroll ∧
    (s < 65536 →
        (draw_messages_panel users_id msgs progress s panel_width).scroll =
          (s, 0)) := by
  refine ⟨rfl, ?_, ?_⟩
  · simp [draw_messages_panel, Nat.add_mod_right]
  · intro hs
    simp [draw_messages_panel, Nat.mod_eq_of_lt hs]

/-- Claim C9 witness at scroll offset 70000: the applied scroll wraps to
70000 mod 65536, and offset 4 is applied unchanged. -/
theorem messages_panel_scroll_witness :
    (draw_messages_panel (fun _ => none) [] none 4 30).scroll = (4, 0) :=
  (messages_panel_scroll (fun _ => none) [] none 4 30).2.2 (by decide)

/-- C2 evaluation: the drawing code does not clamp narrow panels; at
transcript panel width 19 the `u16` subtraction `panel_width - 20` wraps
to 65535 instead of 0, and at input panel width 1 the subtraction
`chunk.width - 2` wraps to 65535 instead of 0 (in a debug build both
panic). -/
theorem narrow_panel_no_clamp :
    ui_width 19 = 65535 ∧ ui_width 19 ≠ 0 ∧
    inner_width 1 = 65535 ∧ inner_width 1 ≠ 0 := by
  decide

set_option maxRecDepth 100000 in
/-- C1: evaluation of the progress-bar arithmetic at progress `(41, 41)`
and panel width 21 (drawable width `W = 1`): the f32 step rounds to
`13094412 * 2 ^ -29` and `41.0 * step` rounds to `16777215 * 2 ^ -24`,
just below 1, so the truncating cast yields 0 filled cells although
`completed = total`; the claimed `filled = W` fails on the code (the bar
renders no cell at 100%). -/
theorem add_progress_bar_f32_failing :
    ui_width 21 = 1 ∧
    ui_current 41 41 21 = 0 ∧
    ui_remaining 41 41 21 = 0 ∧
    F32.mul (F32.ofNat 41) (ui_step 21 41) = ⟨16777215, -24⟩ := by
  decide

set_option maxRecDepth 100000 in
/-- Claim C10 counterexample: at progress `(82, 41)` and panel width 21
the code computes 1 filled cell (the f32 product `82.0 * step` rounds to
`16777215 * 2 ^ -23`, just below 2), while the claimed formula
`round_down(completed * W / total)` gives 2. -/
theorem ui_current_formula_counterexample :
    ui_current 82 41 21 ≠ 82 * ui_width 21 / 41 ∧
    ui_current 82 41 21 = 1 ∧
    82 * ui_width 21 / 41 = 2 := by
  decide

set_option maxRecDepth 100000 in
/-- C10 (amended): when `completed > total > 0` the empty-cell count is
exactly 0 because the remaining amount uses saturating subtraction; the
filled-cell count — the truncated f32 product of `completed` with the f32
step, which rounding can pull below `round_down(completed * W / total)` —
can still exceed the drawable width `W`. -/
theorem add_progress_bar_overflow_amended :
    (∀ current max panel_width, 0 < max → max < current →
        ui_remaining current max panel_width = 0) ∧
    (∃ current max panel_width, 0 < max ∧ max < current ∧ 20 ≤ panel_width ∧
        ui_width panel_width < ui_current current max panel_width) := by
  constructor
  · intro current max panel_width _ hmc
    have hz : max - current = 0 := by omega
    simp [ui_remaining, hz, F32.ofNat, roundToF32, F32.mul, F32.toUsize]
  · exact ⟨2, 1, 25, by decide, by decide, by decide, by decide⟩

/-- Claim C10 witness at progress `(2, 1)` and panel width 25. -/
theorem add_progress_bar_overflow_amended_witness :
    (0 < 1 ∧ 1 < 2) ∧ ui_remaining 2 1 25 = 0 :=
  ⟨by decide, add_progress_bar_overflow_amended.1 2 1 25 (by decide) (by decide)⟩


/-- C3: for usable width at least 1, the cursor lands at screen position
`(origin.x + 1 + offset mod width, origin.y + 1 + offset / width)` — the
row/column of integer division translated by the panel origin plus the
one-cell border — and an offset at an exact multiple of the width lands
at column 0 of that next row. -/
theorem input_cursor_spec (chunk_x chunk_y offset width : Nat)
    (hw : 1 ≤ width) :
    input_cursor_screen chunk_x chunk_y offset width =
      (chunk_x + 1 + offset % width, chunk_y + 1 + offset / width) ∧
    (∀ k, offset = k * width →
        input_cursor_screen chunk_x chunk_y offset width =
          (chunk_x + 1, chunk_y + 1 + k)) := by
  constructor
  · rfl
  · rintro k rfl
    simp [input_cursor_screen, ui_input_cursor, Nat.mul_mod_left,
      Nat.mul_div_cancel _ hw]

/-- Claim C3 witness at the design's worked example: width 10, offset 12,
panel origin `(5, 7)` gives column 2 of row 1 after the border offset. -/
theorem input_cursor_spec_witness :
    1 ≤ 10 ∧
    (input_cursor_screen 5 7 12 10 = (5 + 1 + 12 % 10, 7 + 1 + 12 / 10) ∧
     (∀ k, 12 = k * 10 →
        input_cursor_screen 5 7 12 10 = (5 + 1, 7 + 1 + k))) :=
  ⟨by decide, input_cursor_spec 5 7 12 10 (by decide)⟩

theorem split_each_ne_nil (input : List Char) (width : Nat) :
    split_each input width ≠ [] := by
  rw [split_each]
  split <;> simp

theorem split_each_flatten (input : List Char) (width : Nat) :
    (split_each input width).flatten = input := by
  induction input, width using split_each.induct with
  | case1 input width h =>
      rw [split_each, dif_pos h]
      simp
  | case2 input width h hlt ih =>
      rw [split_each, dif_neg h]
      simp [ih, List.take_append_drop]

theorem split_each_chunk_lengths (input : List Char) (width : Nat) :
    (∀ chunk ∈ (split_each input width).dropLast, chunk.length = width) ∧
    (∀ chunk ∈ split_each input width, chunk.length ≤ width ∨ width = 0) := by
  induction input, width using split_each.induct with
  | case1 input width h =>
      rw [split_each, dif_pos h]
      constructor
      · simp
      · intro chunk hc
        simp at hc
        subst hc
        omega
  | case2 input width h hlt ih =>
      rw [split_each, dif_neg h]
      constructor
      · intro chunk hc
        rw [List.dropLast_cons_of_ne_nil (split_each_ne_nil _ _)] at hc
        rcases List.mem_cons.1 hc with rfl | hc
        · rw [List.length_take]
          omega
        · exact ih.1 chunk hc
      · intro chunk hc
        rcases List.mem_cons.1 hc with rfl | hc
        · rw [List.length_take]
          omega
        · exact ih.2 chunk hc

/-- C4: for a positive usable width the input buffer is split into
fixed-width chunks, in order: every chunk but the last has exactly the
usable width, every chunk fits in it, at least one line (possibly the
final partial chunk) is produced, and concatenating all chunks
reproduces the buffer exactly. -/
theorem split_each_spec (input : List Char) (width : Nat) (hw : 0 < width) :
    (split_each input width).flatten = input ∧
    (∀ chunk ∈ (split_each input width).dropLast, chunk.length = width) ∧
    (∀ chunk ∈ split_each input width, chunk.length ≤ width) ∧
    split_each input width ≠ [] := by
  refine ⟨split_each_flatten input width, (split_each_chunk_lengths input width).1,
    ?_, split_each_ne_nil input width⟩
  intro chunk hc
  rcases (split_each_chunk_lengths input width).2 chunk hc with h | h
  · exact h
  · omega

/-- Claim C4 witness at the buffer `hello world!` and usable width 5. -/
theorem split_each_spec_witness :
    0 < 5 ∧
    ((split_each "hello world!".toList 5).flatten = "hello world!".toList ∧
     (∀ chunk ∈ (split_each "hello world!".toList 5).dropLast,
        chunk.length = 5) ∧
     (∀ chunk ∈ split_each "hello world!".toList 5, chunk.length ≤ 5) ∧
     split_each "hello world!".toList 5 ≠ []) :=
  ⟨by decide, split_each_spec "hello world!".toList 5 (by decide)⟩

end Termchat
